import Mathlib

/-
  Shallow embedding of the OCR batch-processing application.

  Sources modelled:
  - the `ImageFile` record of the types module (id, file name, preview URL,
    recognition status, sync status, optional extracted text, optional error);
  - the App component: handleFileChange, removeImage, syncToSheet,
    copyAllForExcel, processImage, processAll, the clear-all button,
    the grid-view and table-view sync buttons;
  - services/gemini.ts: performOCR.

  External effects (URL.revokeObjectURL, the recognition-service call and the
  fetch dispatch) are recorded in explicit event logs (`revoked`, `ocrCalls`,
  `fetchLog`) so that claims about "the client is invoked / never invoked /
  invoked exactly once" become statements about those logs.  Outcomes of the
  external services are supplied by an environment `Env` (recognition result
  per item, fetch success per item).
-/

namespace OCR

/-- Recognition lifecycle status, from `status: 'idle' | 'processing' | 'completed' | 'error'`. -/
inductive RecStatus
  | idle
  | processing
  | completed
  | error
deriving DecidableEq, Repr

/-- Sync lifecycle status, from `syncStatus: 'idle' | 'syncing' | 'synced' | 'failed'`. -/
inductive SyncStatus
  | idle
  | syncing
  | synced
  | failed
deriving DecidableEq, Repr

/-- One batch item, from the `ImageFile` interface of the types module. -/
structure ImageFile where
  id : String
  fileName : String
  previewUrl : String
  status : RecStatus
  syncStatus : SyncStatus
  extractedText : Option String
  error : Option String
deriving DecidableEq, Repr

/-- One file as delivered by the file picker, together with the id generated for
it (`Math.random().toString(36).substring(7)`) and the preview URL allocated by
`URL.createObjectURL`.  Both are environment-supplied values, so they appear as
input data here. -/
structure FileInput where
  id : String
  name : String
  previewUrl : String
deriving DecidableEq, Repr

/-- The App component's state relevant to the orchestrator, plus the three
event logs recording the external effects. -/
structure AppState where
  images : List ImageFile
  isProcessing : Bool
  showSettings : Bool
  sheetUrl : String
  autoSync : Bool
  urlError : Bool
  /-- log of `URL.revokeObjectURL` calls (the released preview handles). -/
  revoked : List String
  /-- log of recognition-service invocations (item ids, in call order). -/
  ocrCalls : List String
  /-- log of sync `fetch` dispatches (item ids, in call order). -/
  fetchLog : List String
deriving DecidableEq, Repr

/-- Outcomes of the external services: the recognition result for an item
(`fileToBase64` + `performOCR`, either extracted text or a thrown message) and
whether the sync `fetch` promise resolves for a given dispatched item. -/
structure Env where
  ocr : ImageFile → Except String String
  fetch : ImageFile → Bool

/-- The item record built for one picked file in `handleFileChange`. -/
def mkItem (f : FileInput) : ImageFile :=
  { id := f.id
    fileName := f.name
    previewUrl := f.previewUrl
    status := .idle
    syncStatus := .idle
    extractedText := none
    error := none }

/-- `handleFileChange`: append the new items, in submitted order, to the
current collection. -/
def handleFileChange (files : List FileInput) (s : AppState) : AppState :=
  { s with images := s.images ++ files.map mkItem }

/-- `removeImage`: revoke the preview URL of the first item with the given id
(if any), then drop every item with that id. -/
def removeImage (id : String) (s : AppState) : AppState :=
  { s with
    images := s.images.filter (fun it => it.id != id)
    revoked :=
      match s.images.find? (fun it => it.id == id) with
      | some it => s.revoked ++ [it.previewUrl]
      | none => s.revoked }

/-- The clear-all button: `onClick={() => setImages([])}`.  Note that it does
not revoke any preview URL. -/
def clearAll (s : AppState) : AppState :=
  { s with images := [] }

/-- JavaScript `String.prototype.trim()`: strip leading and trailing
whitespace.  Modelled character-wise so that it is kernel-computable. -/
def jsTrim (s : String) : String :=
  ⟨((s.data.dropWhile Char.isWhitespace).reverse.dropWhile Char.isWhitespace).reverse⟩

/-- The per-id sync-status update used by `syncToSheet`'s three `setImages`
calls. -/
def setSync (id : String) (st : SyncStatus) (l : List ImageFile) : List ImageFile :=
  l.map fun it => if it.id = id then { it with syncStatus := st } else it

/-- The state of `syncToSheet` right after it has marked the item `syncing`
and issued the `fetch` dispatch (the dispatch is recorded in `fetchLog`). -/
def syncStartedState (img : ImageFile) (s : AppState) : AppState :=
  { s with
    images := setSync img.id .syncing s.images
    fetchLog := s.fetchLog ++ [img.id] }

/-- `syncToSheet`: if the trimmed endpoint URL is empty, flag the URL error and
open the settings panel without dispatching; otherwise mark the item `syncing`,
dispatch once, and mark it `synced` if the fetch resolved or `failed` if it
rejected. -/
def syncToSheet (env : Env) (img : ImageFile) (s : AppState) : AppState :=
  if jsTrim s.sheetUrl = "" then
    { s with urlError := true, showSettings := true }
  else
    let mid := syncStartedState img s
    if env.fetch img then
      { mid with images := setSync img.id .synced mid.images }
    else
      { mid with images := setSync img.id .failed mid.images }

/-- The grid-view sync button: it is only rendered when the item's status is
`completed`, so a click is only possible in that case. -/
def gridSyncClick (env : Env) (img : ImageFile) (s : AppState) : AppState :=
  if img.status = .completed then syncToSheet env img s else s

/-- The table-view sync button: rendered on every row, with no status gate. -/
def tableSyncClick (env : Env) (img : ImageFile) (s : AppState) : AppState :=
  syncToSheet env img s

/-- `str.replace(/\n/g, ' ')`: every newline character becomes a space. -/
def flattenNewlines (s : String) : String :=
  ⟨s.data.map fun c => if c = '\n' then ' ' else c⟩

/-- `copyAllForExcel`: `none` when no item is completed (nothing is copied);
otherwise the copied text, a fixed three-label tab-separated header line
followed by one tab-separated row per completed item in collection order.
`now` is the value of `new Date().toLocaleString()`. -/
def copyAllForExcel (now : String) (images : List ImageFile) : Option String :=
  let completed := images.filter (fun it => it.status == RecStatus.completed)
  if completed.isEmpty then none
  else
    let header := "檔名\t擷取內容\t處理時間\n"
    let body := String.intercalate "\n" (completed.map fun img =>
      img.fileName ++ "\t" ++ flattenNewlines (img.extractedText.getD "") ++ "\t" ++ now)
    some (header ++ body)

/-- The first `setImages` of `processImage`: the item transitions to
`processing` with its error cleared (`error: undefined`).  Its
`extractedText` field is left untouched by this update. -/
def processImageStart (img : ImageFile) (s : AppState) : AppState :=
  { s with
    images := s.images.map fun it =>
      if it.id = img.id then { it with status := .processing, error := none } else it }

/-- The remainder of `processImage` after the recognition call: on success the
item is replaced by the snapshot record completed with the returned text and
`syncStatus` reset to `idle`, followed by the auto-sync attempt when the
auto-sync flag is on and the trimmed endpoint is non-empty; on failure the item
moves to `error` carrying the thrown message. -/
def processImageFinish (env : Env) (img : ImageFile) (s : AppState) : AppState :=
  match env.ocr img with
  | .ok text =>
      let updated : ImageFile :=
        { img with status := .completed, extractedText := some text, syncStatus := .idle }
      let s2 := { s with
        images := s.images.map fun it => if it.id = img.id then updated else it }
      if s2.autoSync = true ∧ jsTrim s2.sheetUrl ≠ "" then syncToSheet env updated s2 else s2
  | .error msg =>
      { s with
        images := s.images.map fun it =>
          if it.id = img.id then { it with status := .error, error := some msg } else it }

/-- `processImage`: the `processing` transition, the recognition-service call
(recorded in `ocrCalls`), then the outcome transition. -/
def processImage (env : Env) (img : ImageFile) (s : AppState) : AppState :=
  let s1 := processImageStart img s
  processImageFinish env img { s1 with ocrCalls := s1.ocrCalls ++ [img.id] }

/-- `processAll`: no-op when the collection is empty or a pass is already
running; otherwise set the re-entrancy flag, process the snapshot of
non-completed items strictly in order, then clear the flag. -/
def processAll (env : Env) (s : AppState) : AppState :=
  if s.images = [] ∨ s.isProcessing = true then s
  else
    let pending := s.images.filter (fun it => it.status != RecStatus.completed)
    let s1 := { s with isProcessing := true }
    let s2 := pending.foldl (fun st img => processImage env img st) s1
    { s2 with isProcessing := false }

/-- The user-command surface of the store: add, remove, clear, batch pass, and
the two sync buttons. -/
inductive Op
  | add (files : List FileInput)
  | remove (id : String)
  | clear
  | pass
  | gridSync (img : ImageFile)
  | tableSync (img : ImageFile)

/-- Apply one user command to the state. -/
def applyOp (env : Env) (op : Op) (s : AppState) : AppState :=
  match op with
  | .add fs => handleFileChange fs s
  | .remove i => removeImage i s
  | .clear => clearAll s
  | .pass => processAll env s
  | .gridSync img => gridSyncClick env img s
  | .tableSync img => tableSyncClick env img s

/-- Run a sequence of user commands. -/
def runOps (env : Env) (ops : List Op) (s : AppState) : AppState :=
  ops.foldl (fun st op => applyOp env op st) s

/-- The ids generated for the files of the `add` commands of a sequence, in
order. -/
def addedIds : List Op → List String
  | [] => []
  | .add fs :: rest => fs.map (·.id) ++ addedIds rest
  | .remove _ :: rest => addedIds rest
  | .clear :: rest => addedIds rest
  | .pass :: rest => addedIds rest
  | .gridSync _ :: rest => addedIds rest
  | .tableSync _ :: rest => addedIds rest

/-- The items inserted by the `add` commands of a sequence, in insertion
order. -/
def insertedItems : List Op → List ImageFile
  | [] => []
  | .add fs :: rest => fs.map mkItem ++ insertedItems rest
  | .remove _ :: rest => insertedItems rest
  | .clear :: rest => insertedItems rest
  | .pass :: rest => insertedItems rest
  | .gridSync _ :: rest => insertedItems rest
  | .tableSync _ :: rest => insertedItems rest

/-- Whether a command is an `add` or a `remove` (the commands claim C3 ranges
over). -/
def addRemoveOnly : Op → Bool
  | .add _ => true
  | .remove _ => true
  | .clear => false
  | .pass => false
  | .gridSync _ => false
  | .tableSync _ => false

/-- Events of a batch pass interleaved with file additions: `proc img` is one
iteration of the pass loop over the snapshot element `img`, `addFiles fs` is a
`handleFileChange` performed by the user while the loop is suspended on an
awaited call. -/
inductive PassEv
  | proc (img : ImageFile)
  | addFiles (fs : List FileInput)

/-- Run a list of pass events. -/
def runPassEvents (env : Env) (evs : List PassEv) (s : AppState) : AppState :=
  evs.foldl (fun st ev =>
    match ev with
    | .proc img => processImage env img st
    | .addFiles fs => handleFileChange fs st) s

/-- The ids of the items the pass-loop iterations of an event list process, in
order. -/
def passEvIds : List PassEv → List String
  | [] => []
  | .proc img :: rest => img.id :: passEvIds rest
  | .addFiles _ :: rest => passEvIds rest

/-- The `extractedText` / `recognitionState` coupling of claim C2: the text is
present exactly on completed items. -/
def textInv (s : AppState) : Prop :=
  ∀ it ∈ s.images, it.extractedText ≠ none ↔ it.status = RecStatus.completed

instance textInvDecidable (s : AppState) : Decidable (textInv s) :=
  inferInstanceAs
    (Decidable (∀ it ∈ s.images, it.extractedText ≠ none ↔ it.status = RecStatus.completed))

/- ------------------------------------------------------------------ -/
/- services/gemini.ts : performOCR                                     -/
/- ------------------------------------------------------------------ -/

/-- The environment `performOCR` runs in: the `API_KEY` variable (`none` =
unset), and the outcome of the single `generateContent` call — a thrown error
whose message may be absent or empty, or a response whose `text` may be absent
or empty. -/
structure OCREnv where
  apiKey : Option String
  svc : Except (Option String) (Option String)

/-- `error?.message || "Internal API Error"`. -/
def serviceErrMsg : Option String → String
  | none => "Internal API Error"
  | some s => if s = "" then "Internal API Error" else s

/-- Number of recognition-service calls `performOCR` issues: zero when the
credential check throws first, otherwise exactly one (there is no retry
loop). -/
def ocrServiceCalls (env : OCREnv) : Nat :=
  match env.apiKey with
  | none => 0
  | some k => if k = "" then 0 else 1

/-- `performOCR` of services/gemini.ts: throw on a falsy API key; inside the
try block throw on a service error or an empty/absent response text (the catch
block rethrows the message, substituting `"Internal API Error"` for a falsy
one); otherwise return the text. -/
def performOCR (env : OCREnv) : Except String String :=
  match env.apiKey with
  | none => .error "API Key is missing. Please check your environment settings."
  | some k =>
    if k = "" then .error "API Key is missing. Please check your environment settings."
    else
      match env.svc with
      | .error m => .error (serviceErrMsg m)
      | .ok none => .error "Model returned an empty response."
      | .ok (some t) =>
          if t = "" then .error "Model returned an empty response." else .ok t

/- ------------------------------------------------------------------ -/
/- Derived per-item result of a batch pass                             -/
/- ------------------------------------------------------------------ -/

/-- The net effect of one loop iteration of a pass on the store item `it`
matching the snapshot element `img` (same id): recognition failure records the
error on the current item; success replaces it by the completed snapshot, whose
sync status then reflects the auto-sync dispatch when the gate is open. -/
def procHit (env : Env) (auto : Bool) (url : String) (img it : ImageFile) : ImageFile :=
  match env.ocr img with
  | .error e => { it with status := .error, error := some e }
  | .ok t =>
      let done : ImageFile :=
        { img with status := .completed, extractedText := some t, syncStatus := .idle }
      if auto = true ∧ jsTrim url ≠ "" then
        { done with syncStatus := if env.fetch done then .synced else .failed }
      else done

/-- The per-item final state of a full batch pass: completed items are
untouched, every other item is processed in place. -/
def passResult (env : Env) (auto : Bool) (url : String) (it : ImageFile) : ImageFile :=
  if it.status = .completed then it else procHit env auto url it it

/-- One pass-loop iteration as a per-item transform of the whole collection:
only the items sharing the snapshot element's id are touched. -/
def procItem (env : Env) (auto : Bool) (url : String) (img it : ImageFile) : ImageFile :=
  if it.id = img.id then procHit env auto url img it else it

/-- A fresh idle item with a preview handle derived from its id, used to build
concrete stores. -/
def item0 (i n : String) : ImageFile := mkItem ⟨i, n, "blob:" ++ i⟩

/-- A concrete application state with the given collection, endpoint URL and
auto-sync flag, no pass running, settings closed, clean logs. -/
def baseState (imgs : List ImageFile) (url : String) (auto : Bool) : AppState :=
  { images := imgs
    isProcessing := false
    showSettings := false
    sheetUrl := url
    autoSync := auto
    urlError := false
    revoked := []
    ocrCalls := []
    fetchLog := [] }

/-- An environment whose recognition call fails (with message `"boom"`) exactly
on the item with id `"b"` and returns `"txt"` elsewhere; fetches always
resolve. -/
def scenarioEnv : Env :=
  { ocr := fun it => if it.id = "b" then .error "boom" else .ok "txt"
    fetch := fun _ => true }

/-- An environment where recognition always succeeds with `"txt"` and fetches
always resolve. -/
def okEnv : Env :=
  { ocr := fun _ => .ok "txt"
    fetch := fun _ => true }

/-- An environment whose recognition call fails exactly on the item whose file
name is `"b.png"`, used to exercise a store that holds two items sharing one
id. -/
def dupEnv : Env :=
  { ocr := fun it => if it.fileName = "b.png" then .error "boom" else .ok "txt"
    fetch := fun _ => true }

/-- Three freshly added items `a`, `b`, `c`, no endpoint, auto-sync off. -/
def threeState : AppState :=
  baseState [item0 "a" "a.png", item0 "b" "b.png", item0 "c" "c.png"] "" false

/-- The fetch dispatch (if any) that one pass-loop iteration performs for a
snapshot element: one dispatch when recognition succeeds and the auto-sync gate
is open, none otherwise. -/
def autoFetchEntry (env : Env) (auto : Bool) (url : String) (img : ImageFile) : Option String :=
  match env.ocr img with
  | .ok _ => if auto = true ∧ jsTrim url ≠ "" then some img.id else none
  | .error _ => none

/- ------------------------------------------------------------------ -/
/- Structural lemmas                                                   -/
/- ------------------------------------------------------------------ -/

theorem procItem_id (env : Env) (a : Bool) (u : String) (img it : ImageFile) :
    (procItem env a u img it).id = it.id := by
  unfold procItem procHit
  by_cases hid : it.id = img.id
  · cases env.ocr img with
    | error e => simp [hid]
    | ok t =>
        by_cases hg : a = true ∧ jsTrim u ≠ "" <;> simp [hid, hg]
  · simp [hid]

/-- `processImage` in closed form: a single per-item map over the collection,
one recognition-call log entry, and a fetch-log entry exactly when recognition
succeeded and the auto-sync gate was open; no other field changes. -/
theorem processImage_eq (env : Env) (img : ImageFile) (s : AppState) :
    processImage env img s =
      { s with
        images := s.images.map (procItem env s.autoSync s.sheetUrl img)
        ocrCalls := s.ocrCalls ++ [img.id]
        fetchLog := s.fetchLog ++ (autoFetchEntry env s.autoSync s.sheetUrl img).toList } := by
  unfold processImage processImageStart processImageFinish syncToSheet syncStartedState setSync
    autoFetchEntry
  cases hocr : env.ocr img with
  | error e =>
      simp [hocr, List.map_map, Option.toList]
      intro it _
      by_cases hid : it.id = img.id <;> simp [procItem, procHit, hocr, hid]
  | ok t =>
      by_cases hgate : s.autoSync = true ∧ jsTrim s.sheetUrl ≠ ""
      · obtain ⟨ha, hu⟩ := hgate
        by_cases hf :
            env.fetch { img with status := .completed, extractedText := some t, syncStatus := .idle }
              = true
        · simp [hocr, ha, hu, hf, List.map_map]
          intro it _
          by_cases hid : it.id = img.id <;> simp [procItem, procHit, hocr, hid, ha, hu, hf]
        · simp [hocr, ha, hu, hf, List.map_map]
          intro it _
          by_cases hid : it.id = img.id <;> simp [procItem, procHit, hocr, hid, ha, hu, hf]
      · simp [hocr, hgate, List.map_map]
        intro it _
        by_cases hid : it.id = img.id <;> simp [procItem, procHit, hocr, hid, hgate]

theorem procHit_self_id (env : Env) (a : Bool) (u : String) (it : ImageFile) :
    (procHit env a u it it).id = it.id := by
  have h := procItem_id env a u it it
  simpa [procItem] using h

theorem map_procItem_ids (env : Env) (a : Bool) (u : String) (img : ImageFile)
    (l : List ImageFile) :
    (l.map (procItem env a u img)).map (·.id) = l.map (·.id) := by
  simp only [List.map_map]
  apply List.map_congr_left
  intro it _
  exact procItem_id env a u img it

/-- The pass loop over a duplicate-free snapshot, in closed form: a single
per-item map keyed by the snapshot ids, the recognition log extended by the
snapshot ids in order, and the fetch log extended by the auto-sync
dispatches. -/
theorem foldProcess_eq (env : Env) :
    ∀ (todo : List ImageFile) (s : AppState),
      (s.images.map (·.id)).Nodup →
      (todo.map (·.id)).Nodup →
      (∀ x ∈ todo, x ∈ s.images) →
      todo.foldl (fun st img => processImage env img st) s =
        { s with
          images := s.images.map (fun it =>
            if it.id ∈ todo.map (·.id) then
              procHit env s.autoSync s.sheetUrl it it
            else it)
          ocrCalls := s.ocrCalls ++ todo.map (·.id)
          fetchLog := s.fetchLog ++ todo.filterMap (autoFetchEntry env s.autoSync s.sheetUrl) }
  | [], s => by
      intro _ _ _
      simp
  | img :: rest, s => by
      intro hs hrest hmem
      have hrest0 : (img.id :: rest.map (·.id)).Nodup := by
        rw [← List.map_cons]; exact hrest
      have hid_head : img.id ∉ rest.map (·.id) := (List.nodup_cons.mp hrest0).1
      have hrest' : (rest.map (·.id)).Nodup := (List.nodup_cons.mp hrest0).2
      have himg_mem : img ∈ s.images := hmem img (by simp)
      set s' := processImage env img s with hsdef
      have himages' : s'.images = s.images.map (procItem env s.autoSync s.sheetUrl img) := by
        rw [hsdef, processImage_eq]
      have hids' : s'.images.map (·.id) = s.images.map (·.id) := by
        rw [himages', map_procItem_ids]
      have hnodup' : (s'.images.map (·.id)).Nodup := by rw [hids']; exact hs
      have hmem' : ∀ x ∈ rest, x ∈ s'.images := by
        intro x hx
        have hxid : x.id ≠ img.id := by
          intro h
          exact hid_head (h ▸ List.mem_map_of_mem (fun it => it.id) hx)
        have hfix : procItem env s.autoSync s.sheetUrl img x = x := by
          simp [procItem, hxid]
        rw [himages']
        have hm := List.mem_map_of_mem (procItem env s.autoSync s.sheetUrl img)
          (hmem x (List.mem_cons_of_mem _ hx))
        rwa [hfix] at hm
      have ih := foldProcess_eq env rest s' hnodup' hrest' hmem'
      simp only [List.foldl_cons]
      rw [← hsdef, ih]
      rw [hsdef, processImage_eq]
      simp only [List.map_cons, List.filterMap_cons]
      have hinj := List.inj_on_of_nodup_map hs
      simp only [AppState.mk.injEq, and_true, true_and]
      refine ⟨?_, ?_, ?_⟩
      · simp only [List.map_map]
        apply List.map_congr_left
        intro it hit
        by_cases hid : it.id = img.id
        · have himg : img = it := hinj himg_mem hit (by rw [hid])
          subst himg
          simp [Function.comp, procItem, procHit_self_id, hid_head]
        · simp [Function.comp, procItem, hid]
      · simp
      · cases hE : autoFetchEntry env s.autoSync s.sheetUrl img <;> simp [hE]

/-- A full batch pass over a non-empty, duplicate-free store, in closed form:
every non-completed item is processed in place (`passResult`), the recognition
client is invoked on exactly the non-completed items in collection order, and
the fetch log records exactly the auto-sync dispatches; no other field
changes. -/
theorem processAll_eq (env : Env) (s : AppState)
    (hne : ¬ s.images = []) (hproc : s.isProcessing = false)
    (hnodup : (s.images.map (·.id)).Nodup) :
    processAll env s =
      { s with
        images := s.images.map (passResult env s.autoSync s.sheetUrl)
        isProcessing := false
        ocrCalls := s.ocrCalls ++
          (s.images.filter (fun it => it.status != RecStatus.completed)).map (·.id)
        fetchLog := s.fetchLog ++
          (s.images.filter (fun it => it.status != RecStatus.completed)).filterMap
            (autoFetchEntry env s.autoSync s.sheetUrl) } := by
  have hguard : ¬ (s.images = [] ∨ s.isProcessing = true) := by
    simp [hne, hproc]
  unfold processAll
  rw [if_neg hguard]
  dsimp only
  have hsub : List.Sublist (s.images.filter (fun it => it.status != RecStatus.completed))
      s.images :=
    List.filter_sublist s.images
  have hpendmem :
      ∀ x ∈ s.images.filter (fun it => it.status != RecStatus.completed),
        x ∈ ({ s with isProcessing := true } : AppState).images := by
    intro x hx
    exact hsub.subset hx
  have hpendnodup :
      ((s.images.filter (fun it => it.status != RecStatus.completed)).map (·.id)).Nodup :=
    (hsub.map (·.id)).nodup hnodup
  rw [foldProcess_eq env (s.images.filter (fun it => it.status != RecStatus.completed))
      ({ s with isProcessing := true } : AppState) hnodup hpendnodup hpendmem]
  have hinj := List.inj_on_of_nodup_map hnodup
  simp only [AppState.mk.injEq, and_true, true_and]
  apply List.map_congr_left
  intro it hit
  have hiff :
      it.id ∈ (s.images.filter (fun x => x.status != RecStatus.completed)).map (·.id) ↔
        ¬ it.status = RecStatus.completed := by
    constructor
    · intro hm
      obtain ⟨p, hp, hpid⟩ := List.mem_map.mp hm
      have hpeq : p = it := hinj (hsub.subset hp) hit hpid
      subst hpeq
      have := (List.mem_filter.mp hp).2
      simpa using this
    · intro hnc
      exact List.mem_map.mpr ⟨it, List.mem_filter.mpr ⟨hit, by simpa using hnc⟩, rfl⟩
  by_cases hc : it.status = RecStatus.completed
  · have hnm : ¬ it.id ∈ (s.images.filter (fun x => x.status != RecStatus.completed)).map (·.id) := by
      rw [hiff]; simp [hc]
    simp [passResult, hc, hnm]
  · have hm : it.id ∈ (s.images.filter (fun x => x.status != RecStatus.completed)).map (·.id) :=
      hiff.mpr hc
    simp [passResult, hc, hm]

theorem foldl_processImage_inv (env : Env) (P : AppState → Prop)
    (hstep : ∀ st img, P st → P (processImage env img st)) :
    ∀ (todo : List ImageFile) (s : AppState), P s →
      P (todo.foldl (fun st img => processImage env img st) s)
  | [], _, h => h
  | img :: rest, s, h =>
      foldl_processImage_inv env P hstep rest (processImage env img s) (hstep s img h)

theorem processImage_ids (env : Env) (img : ImageFile) (s : AppState) :
    (processImage env img s).images.map (·.id) = s.images.map (·.id) := by
  rw [processImage_eq]
  exact map_procItem_ids env s.autoSync s.sheetUrl img s.images

theorem processAll_ids (env : Env) (s : AppState) :
    (processAll env s).images.map (·.id) = s.images.map (·.id) := by
  unfold processAll
  by_cases hg : s.images = [] ∨ s.isProcessing = true
  · rw [if_pos hg]
  · rw [if_neg hg]
    dsimp only
    exact foldl_processImage_inv env
      (fun st => st.images.map (·.id) = s.images.map (·.id))
      (fun st img hst => by
        show (processImage env img st).images.map (·.id) = s.images.map (·.id)
        rw [processImage_ids]
        exact hst)
      (s.images.filter (fun it => it.status != RecStatus.completed))
      { s with isProcessing := true } rfl

theorem setSync_ids (i : String) (st : SyncStatus) (l : List ImageFile) :
    (setSync i st l).map (·.id) = l.map (·.id) := by
  unfold setSync
  simp only [List.map_map]
  apply List.map_congr_left
  intro it _
  by_cases hid : it.id = i <;> simp [hid]

theorem syncToSheet_ids (env : Env) (img : ImageFile) (s : AppState) :
    (syncToSheet env img s).images.map (·.id) = s.images.map (·.id) := by
  unfold syncToSheet syncStartedState
  by_cases h : jsTrim s.sheetUrl = ""
  · rw [if_pos h]
  · rw [if_neg h]
    by_cases hf : env.fetch img = true
    · rw [if_pos hf]
      simp [setSync_ids]
    · rw [if_neg hf]
      simp [setSync_ids]

/-- An item's recognition status and extracted text survive any sync-status
update. -/
theorem setSync_status_text (i : String) (st : SyncStatus) (l : List ImageFile) :
    (setSync i st l).map (fun it => (it.status, it.extractedText)) =
      l.map (fun it => (it.status, it.extractedText)) := by
  unfold setSync
  simp only [List.map_map]
  apply List.map_congr_left
  intro it _
  by_cases hid : it.id = i <;> simp [hid]

theorem textInv_of_map_eq {s s' : AppState}
    (h : s'.images.map (fun it => (it.status, it.extractedText)) =
      s.images.map (fun it => (it.status, it.extractedText)))
    (hs : textInv s) : textInv s' := by
  intro it hit
  have hmem : (it.status, it.extractedText) ∈
      s'.images.map (fun x => (x.status, x.extractedText)) :=
    List.mem_map_of_mem _ hit
  rw [h] at hmem
  obtain ⟨x, hx, hxy⟩ := List.mem_map.mp hmem
  have h1 : x.status = it.status := congrArg Prod.fst hxy
  have h2 : x.extractedText = it.extractedText := congrArg Prod.snd hxy
  rw [← h1, ← h2]
  exact hs x hx

theorem textInv_syncToSheet (env : Env) (img : ImageFile) (s : AppState)
    (h : textInv s) : textInv (syncToSheet env img s) := by
  unfold syncToSheet syncStartedState
  by_cases hu : jsTrim s.sheetUrl = ""
  · rw [if_pos hu]
    exact h
  · rw [if_neg hu]
    by_cases hf : env.fetch img = true
    · rw [if_pos hf]
      exact textInv_of_map_eq (s := s)
        (by simp [setSync_status_text]) h
    · rw [if_neg hf]
      exact textInv_of_map_eq (s := s)
        (by simp [setSync_status_text]) h

theorem addedIds_append : ∀ (a b : List Op), addedIds (a ++ b) = addedIds a ++ addedIds b
  | [], _ => rfl
  | op :: rest, b => by
      cases op <;> simp [addedIds, addedIds_append rest b]

theorem handleFileChange_ids (fs : List FileInput) (s : AppState) :
    (handleFileChange fs s).images.map (·.id) = s.images.map (·.id) ++ fs.map (·.id) := by
  simp [handleFileChange, mkItem, List.map_map, Function.comp]

theorem removeImage_ids_sublist (i : String) (s : AppState) :
    List.Sublist ((removeImage i s).images.map (·.id)) (s.images.map (·.id)) :=
  (List.filter_sublist s.images).map (·.id)

theorem gridSyncClick_ids (env : Env) (img : ImageFile) (s : AppState) :
    (gridSyncClick env img s).images.map (·.id) = s.images.map (·.id) := by
  unfold gridSyncClick
  by_cases hc : img.status = RecStatus.completed
  · rw [if_pos hc, syncToSheet_ids]
  · rw [if_neg hc]

/-- Along any command sequence, the store's id list stays a subsequence of the
initial ids followed by the ids generated for the added files, in order. -/
theorem runOps_ids_sublist (env : Env) :
    ∀ (ops : List Op) (s : AppState),
      List.Sublist ((runOps env ops s).images.map (·.id))
        (s.images.map (·.id) ++ addedIds ops)
  | [], s => by simp [runOps, addedIds]
  | op :: rest, s => by
      have hstep : runOps env (op :: rest) s = runOps env rest (applyOp env op s) := rfl
      rw [hstep]
      cases op with
      | add fs =>
          have ih := runOps_ids_sublist env rest (handleFileChange fs s)
          rw [handleFileChange_ids] at ih
          simpa [addedIds, List.append_assoc] using ih
      | remove i =>
          have ih := runOps_ids_sublist env rest (removeImage i s)
          refine ih.trans ?_
          simpa [addedIds] using
            List.Sublist.append (removeImage_ids_sublist i s) (List.Sublist.refl (addedIds rest))
      | clear =>
          have ih := runOps_ids_sublist env rest (clearAll s)
          have hcl : (clearAll s).images.map (·.id) = [] := rfl
          rw [hcl, List.nil_append] at ih
          refine ih.trans ?_
          show List.Sublist (addedIds rest) (s.images.map (·.id) ++ addedIds (Op.clear :: rest))
          exact List.sublist_append_right (s.images.map (·.id)) (addedIds rest)
      | pass =>
          have ih := runOps_ids_sublist env rest (processAll env s)
          rw [processAll_ids] at ih
          simpa [addedIds] using ih
      | gridSync img =>
          have ih := runOps_ids_sublist env rest (gridSyncClick env img s)
          rw [gridSyncClick_ids] at ih
          simpa [addedIds] using ih
      | tableSync img =>
          have ih := runOps_ids_sublist env rest (tableSyncClick env img s)
          rw [show (tableSyncClick env img s).images.map (·.id) = s.images.map (·.id) from
            syncToSheet_ids env img s] at ih
          simpa [addedIds] using ih

/-- For add/remove-only sequences, the store is always a subsequence of the
initial collection followed by the inserted items, in insertion order. -/
theorem runOps_addRemove_sublist (env : Env) :
    ∀ (ops : List Op) (s : AppState), (∀ op ∈ ops, addRemoveOnly op = true) →
      List.Sublist (runOps env ops s).images (s.images ++ insertedItems ops)
  | [], s, _ => by simp [runOps, insertedItems]
  | op :: rest, s, hall => by
      have hstep : runOps env (op :: rest) s = runOps env rest (applyOp env op s) := rfl
      rw [hstep]
      have hrest : ∀ o ∈ rest, addRemoveOnly o = true :=
        fun o ho => hall o (List.mem_cons_of_mem _ ho)
      cases op with
      | add fs =>
          have ih := runOps_addRemove_sublist env rest (handleFileChange fs s) hrest
          simpa [applyOp, handleFileChange, insertedItems, List.append_assoc] using ih
      | remove i =>
          have ih := runOps_addRemove_sublist env rest (removeImage i s) hrest
          refine ih.trans ?_
          have hsub : List.Sublist (removeImage i s).images s.images :=
            List.filter_sublist s.images
          simpa [insertedItems] using
            List.Sublist.append hsub (List.Sublist.refl (insertedItems rest))
      | clear => exact absurd (hall Op.clear (by simp)) (by simp [addRemoveOnly])
      | pass => exact absurd (hall Op.pass (by simp)) (by simp [addRemoveOnly])
      | gridSync img => exact absurd (hall (Op.gridSync img) (by simp)) (by simp [addRemoveOnly])
      | tableSync img => exact absurd (hall (Op.tableSync img) (by simp)) (by simp [addRemoveOnly])

theorem textInv_handleFileChange (fs : List FileInput) (s : AppState)
    (h : textInv s) : textInv (handleFileChange fs s) := by
  intro it hit
  unfold handleFileChange at hit
  simp only [List.mem_append] at hit
  rcases hit with hold | hnew
  · exact h it hold
  · obtain ⟨f, _, hfe⟩ := List.mem_map.mp hnew
    subst hfe
    simp [mkItem]

theorem textInv_removeImage (i : String) (s : AppState)
    (h : textInv s) : textInv (removeImage i s) := by
  intro it hit
  exact h it (List.mem_of_mem_filter hit)

theorem textInv_processAll (env : Env) (s : AppState)
    (hinv : textInv s) (hnodup : (s.images.map (·.id)).Nodup) :
    textInv (processAll env s) := by
  by_cases hg : s.images = [] ∨ s.isProcessing = true
  · unfold processAll
    rw [if_pos hg]
    exact hinv
  · rw [not_or] at hg
    obtain ⟨hne, hp⟩ := hg
    have hp' : s.isProcessing = false := by
      cases hs : s.isProcessing
      · rfl
      · exact absurd hs hp
    rw [processAll_eq env s hne hp' hnodup]
    intro it hit
    obtain ⟨x, hx, hxe⟩ := List.mem_map.mp hit
    subst hxe
    by_cases hc : x.status = RecStatus.completed
    · simpa [passResult, hc] using hinv x hx
    · cases hocr : env.ocr x with
      | error e =>
          have hx' := hinv x hx
          simp only [passResult, hc, if_neg hc, procHit, hocr]
          constructor
          · intro hne'
            exact absurd (hx'.mp hne') hc
          · intro habs
            exact absurd habs (by simp)
      | ok t =>
          by_cases hgate : s.autoSync = true ∧ jsTrim s.sheetUrl ≠ "" <;>
            simp [passResult, hc, procHit, hocr, hgate]

/-- The text/completed coupling is preserved along every command sequence whose
added ids are globally fresh. -/
theorem textInv_runOps (env : Env) :
    ∀ (ops : List Op) (s : AppState), textInv s →
      ((s.images.map (·.id)) ++ addedIds ops).Nodup →
      textInv (runOps env ops s)
  | [], _, h, _ => h
  | op :: rest, s, h, hfresh => by
      have hstep : runOps env (op :: rest) s = runOps env rest (applyOp env op s) := rfl
      rw [hstep]
      cases op with
      | add fs =>
          refine textInv_runOps env rest (handleFileChange fs s)
            (textInv_handleFileChange fs s h) ?_
          rw [handleFileChange_ids, List.append_assoc]
          simpa [addedIds] using hfresh
      | remove i =>
          refine textInv_runOps env rest (removeImage i s)
            (textInv_removeImage i s h) ?_
          have hsub : List.Sublist ((removeImage i s).images.map (·.id) ++ addedIds rest)
              (s.images.map (·.id) ++ addedIds rest) :=
            List.Sublist.append (removeImage_ids_sublist i s) (List.Sublist.refl _)
          exact hsub.nodup (by simpa [addedIds] using hfresh)
      | clear =>
          refine textInv_runOps env rest (clearAll s) (fun it hit => absurd hit (by simp [clearAll])) ?_
          have hcl : (clearAll s).images.map (·.id) = [] := rfl
          rw [hcl, List.nil_append]
          have hsub : List.Sublist (addedIds rest)
              (s.images.map (·.id) ++ addedIds rest) :=
            List.sublist_append_right _ _
          exact hsub.nodup (by simpa [addedIds] using hfresh)
      | pass =>
          have hids : (s.images.map (·.id)).Nodup :=
            (List.sublist_append_left _ _).nodup hfresh
          refine textInv_runOps env rest (processAll env s)
            (textInv_processAll env s h hids) ?_
          rw [processAll_ids]
          simpa [addedIds] using hfresh
      | gridSync img =>
          have hg : textInv (gridSyncClick env img s) := by
            unfold gridSyncClick
            by_cases hc : img.status = RecStatus.completed
            · rw [if_pos hc]
              exact textInv_syncToSheet env img s h
            · rw [if_neg hc]
              exact h
          refine textInv_runOps env rest (gridSyncClick env img s) hg ?_
          rw [gridSyncClick_ids]
          simpa [addedIds] using hfresh
      | tableSync img =>
          refine textInv_runOps env rest (tableSyncClick env img s)
            (textInv_syncToSheet env img s h) ?_
          rw [show (tableSyncClick env img s).images.map (·.id) = s.images.map (·.id) from
            syncToSheet_ids env img s]
          simpa [addedIds] using hfresh

/-- With an empty endpoint, one pass-loop iteration performs no fetch dispatch
and leaves the configuration surface untouched. -/
theorem processImage_emptyUrl (env : Env) (img : ImageFile) (s : AppState)
    (h : jsTrim s.sheetUrl = "") :
    (processImage env img s).fetchLog = s.fetchLog ∧
    (processImage env img s).urlError = s.urlError ∧
    (processImage env img s).showSettings = s.showSettings ∧
    (processImage env img s).sheetUrl = s.sheetUrl := by
  rw [processImage_eq]
  cases hocr : env.ocr img <;> simp [autoFetchEntry, hocr, h]

/-- With an empty endpoint, a whole batch pass performs no fetch dispatch and
leaves the configuration surface untouched. -/
theorem processAll_emptyUrl (env : Env) (s : AppState) (h : jsTrim s.sheetUrl = "") :
    (processAll env s).fetchLog = s.fetchLog ∧
    (processAll env s).urlError = s.urlError ∧
    (processAll env s).showSettings = s.showSettings := by
  unfold processAll
  by_cases hg : s.images = [] ∨ s.isProcessing = true
  · rw [if_pos hg]
    exact ⟨rfl, rfl, rfl⟩
  · rw [if_neg hg]
    dsimp only
    have hfold := foldl_processImage_inv env
      (fun st => st.fetchLog = s.fetchLog ∧ st.urlError = s.urlError ∧
        st.showSettings = s.showSettings ∧ st.sheetUrl = s.sheetUrl)
      (fun st img hst => by
        have hurl : jsTrim st.sheetUrl = "" := by rw [hst.2.2.2]; exact h
        have hpi := processImage_emptyUrl env img st hurl
        exact ⟨hpi.1.trans hst.1, (hpi.2.1).trans hst.2.1,
          (hpi.2.2.1).trans hst.2.2.1, (hpi.2.2.2).trans hst.2.2.2⟩)
      (s.images.filter (fun it => it.status != RecStatus.completed))
      { s with isProcessing := true } ⟨rfl, rfl, rfl, rfl⟩
    exact ⟨hfold.1, hfold.2.1, hfold.2.2.1⟩

theorem passEvIds_append : ∀ (a b : List PassEv),
    passEvIds (a ++ b) = passEvIds a ++ passEvIds b
  | [], _ => rfl
  | .proc img :: rest, b => by
      simp [passEvIds, passEvIds_append rest b]
  | .addFiles _ :: rest, b => by
      simp [passEvIds, passEvIds_append rest b]

theorem passEvIds_procs : ∀ (l : List ImageFile),
    passEvIds (l.map PassEv.proc) = l.map (·.id)
  | [] => rfl
  | img :: rest => by
      simp [passEvIds, passEvIds_procs rest]

/-- The recognition client is invoked on exactly the `proc` events of an
interleaved pass run, in order; additions contribute nothing. -/
theorem runPassEvents_ocrCalls (env : Env) :
    ∀ (evs : List PassEv) (s : AppState),
      (runPassEvents env evs s).ocrCalls = s.ocrCalls ++ passEvIds evs
  | [], s => by simp [runPassEvents, passEvIds]
  | .proc img :: rest, s => by
      have hstep : runPassEvents env (.proc img :: rest) s =
          runPassEvents env rest (processImage env img s) := rfl
      rw [hstep, runPassEvents_ocrCalls env rest]
      rw [processImage_eq]
      simp [passEvIds]
  | .addFiles fs :: rest, s => by
      have hstep : runPassEvents env (.addFiles fs :: rest) s =
          runPassEvents env rest (handleFileChange fs s) := rfl
      rw [hstep, runPassEvents_ocrCalls env rest]
      simp [handleFileChange, passEvIds]

/-- An item whose id differs from every processed snapshot element survives an
interleaved pass run unchanged. -/
theorem runPassEvents_mem (env : Env) :
    ∀ (evs : List PassEv) (s : AppState) (x : ImageFile),
      x ∈ s.images →
      (∀ img, PassEv.proc img ∈ evs → ¬ x.id = img.id) →
      x ∈ (runPassEvents env evs s).images
  | [], _, _, hx, _ => hx
  | .proc img :: rest, s, x, hx, hids => by
      have hstep : runPassEvents env (.proc img :: rest) s =
          runPassEvents env rest (processImage env img s) := rfl
      rw [hstep]
      refine runPassEvents_mem env rest _ x ?_
        (fun i hi => hids i (List.mem_cons_of_mem _ hi))
      have hxid : ¬ x.id = img.id := hids img (List.mem_cons_self _ _)
      have hfix : procItem env s.autoSync s.sheetUrl img x = x := by
        simp [procItem, hxid]
      have hmm := List.mem_map_of_mem (procItem env s.autoSync s.sheetUrl img) hx
      rw [hfix] at hmm
      show x ∈ (processImage env img s).images
      rw [processImage_eq]
      exact hmm
  | .addFiles fs :: rest, s, x, hx, hids => by
      have hstep : runPassEvents env (.addFiles fs :: rest) s =
          runPassEvents env rest (handleFileChange fs s) := rfl
      rw [hstep]
      refine runPassEvents_mem env rest _ x ?_
        (fun i hi => hids i (List.mem_cons_of_mem _ hi))
      show x ∈ (handleFileChange fs s).images
      unfold handleFileChange
      exact List.mem_append_left _ hx

/- ------------------------------------------------------------------ -/
/- Claims                                                              -/
/- ------------------------------------------------------------------ -/

/-- Claim C4, exhibit of the violating behaviour: the table-view sync button
(`tableSyncClick`) carries no completed-status gate, so with a non-empty
endpoint it drives an item whose recognition status is still `idle` first to
`syncing` (the state after the dispatch is issued) and then to `synced` —
contradicting the invariant that `syncState` may only move to `Syncing` when
`recognitionState = Completed`. -/
theorem claim_C4 :
    (item0 "a" "a.png").status = RecStatus.idle ∧
    ((syncStartedState (item0 "a" "a.png") (baseState [item0 "a" "a.png"] "u" false)).images.map
      (fun it => (it.status, it.syncStatus))) = [(RecStatus.idle, SyncStatus.syncing)] ∧
    ((tableSyncClick okEnv (item0 "a" "a.png") (baseState [item0 "a" "a.png"] "u" false)).images.map
      (fun it => (it.status, it.syncStatus))) = [(RecStatus.idle, SyncStatus.synced)] := by
  decide

/-- Claim C5, exhibit of the violating behaviour: the clear-all button
(`clearAll`, `setImages([])`) removes every item but revokes no preview
handle — the handle `"blob:a"` of the removed item is never released (leaked) —
whereas `removeImage` of the same store does release it exactly once. -/
theorem claim_C5 :
    (clearAll (baseState [item0 "a" "a.png"] "" false)).images = [] ∧
    (clearAll (baseState [item0 "a" "a.png"] "" false)).revoked = [] ∧
    (removeImage "a" (baseState [item0 "a" "a.png"] "" false)).images = [] ∧
    (removeImage "a" (baseState [item0 "a" "a.png"] "" false)).revoked = ["blob:a"] := by
  decide

/-- Claim C7: a sync dispatch with a non-empty (trimmed) endpoint makes exactly
one fetch attempt (one new entry in the dispatch log, no retry), sets the
item's sync status to `synced` when the dispatch resolves and to `failed`
exactly when it rejects at the network level, and changes nothing else: every
other item, and the recognition status and text of the synced item itself, are
untouched. -/
theorem claim_C7 (env : Env) (img : ImageFile) (s : AppState)
    (hurl : ¬ jsTrim s.sheetUrl = "") :
    syncToSheet env img s =
      { s with
        images := s.images.map fun it =>
          if it.id = img.id then
            { it with syncStatus := if env.fetch img then .synced else .failed }
          else it
        fetchLog := s.fetchLog ++ [img.id] } := by
  unfold syncToSheet syncStartedState setSync
  rw [if_neg hurl]
  by_cases hf : env.fetch img = true
  · simp [hf, List.map_map]
    intro it _
    by_cases hid : it.id = img.id <;> simp [hid]
  · simp [hf, List.map_map]
    intro it _
    by_cases hid : it.id = img.id <;> simp [hid]

/-- Witness for C7 at a concrete input: a completed item `"a"` synced against
endpoint `"u"` with a resolving fetch ends `synced`, and the dispatch log gains
exactly one entry. -/
theorem claim_C7_witness :
    ¬ jsTrim (baseState [item0 "a" "a.png"] "u" false).sheetUrl = "" ∧
    syncToSheet okEnv (item0 "a" "a.png") (baseState [item0 "a" "a.png"] "u" false) =
      { baseState [⟨"a", "a.png", "blob:a", .idle, .synced, none, none⟩] "u" false with
        fetchLog := ["a"] } := by
  constructor
  · decide
  · rw [claim_C7 okEnv (item0 "a" "a.png") (baseState [item0 "a" "a.png"] "u" false) (by decide)]
    decide

/-- Claim C8: `performOCR` fails exactly in the three cases — missing (or
empty, hence falsy) credential, transport/service error carrying the upstream
message (with a non-empty fallback message), and empty service response — and
otherwise returns exactly the service's non-empty text; the service is
consulted at most once per call (no internal retry). -/
theorem claim_C8 (env : OCREnv) :
    ((env.apiKey = none ∨ env.apiKey = some "") →
      performOCR env = .error "API Key is missing. Please check your environment settings.") ∧
    (∀ k m, env.apiKey = some k → ¬ k = "" → env.svc = .error m →
      performOCR env = .error (serviceErrMsg m) ∧ ¬ serviceErrMsg m = "") ∧
    (∀ k, env.apiKey = some k → ¬ k = "" →
      (env.svc = .ok none ∨ env.svc = .ok (some "")) →
      performOCR env = .error "Model returned an empty response.") ∧
    (∀ k t, env.apiKey = some k → ¬ k = "" → env.svc = .ok (some t) → ¬ t = "" →
      performOCR env = .ok t) ∧
    (∀ t, performOCR env = .ok t → ¬ t = "") ∧
    ocrServiceCalls env ≤ 1 := by
  refine ⟨?_, ?_, ?_, ?_, ?_, ?_⟩
  · rintro (h | h) <;> simp [performOCR, h]
  · intro k m hk hk0 hsvc
    refine ⟨by simp [performOCR, hk, hk0, hsvc], ?_⟩
    cases m with
    | none => decide
    | some msg =>
        by_cases hmsg : msg = ""
        · rw [hmsg]; decide
        · simp [serviceErrMsg, hmsg]
  · intro k hk hk0 hsvc
    rcases hsvc with h | h <;> simp [performOCR, hk, hk0, h]
  · intro k t hk hk0 hsvc ht
    simp [performOCR, hk, hk0, hsvc, ht]
  · intro t h
    cases hk : env.apiKey with
    | none => simp [performOCR, hk] at h
    | some k =>
        by_cases hk0 : k = ""
        · simp [performOCR, hk, hk0] at h
        · cases hsvc : env.svc with
          | error m => simp [performOCR, hk, hk0, hsvc] at h
          | ok t0 =>
              cases t0 with
              | none => simp [performOCR, hk, hk0, hsvc] at h
              | some u =>
                  by_cases hu : u = ""
                  · simp [performOCR, hk, hk0, hsvc, hu] at h
                  · simp [performOCR, hk, hk0, hsvc, hu] at h
                    rw [← h]
                    exact hu
  · unfold ocrServiceCalls
    cases env.apiKey with
    | none => simp
    | some k => by_cases hk : k = "" <;> simp [hk]

/-- Witness for C8 at a concrete input: with a configured key and a service
response `"hello"`, `performOCR` returns exactly that text. -/
theorem claim_C8_witness :
    (⟨some "k", .ok (some "hello")⟩ : OCREnv).apiKey = some "k" ∧ ¬ "k" = "" ∧
    performOCR ⟨some "k", .ok (some "hello")⟩ = .ok "hello" := by
  refine ⟨rfl, by decide, ?_⟩
  exact (claim_C8 ⟨some "k", .ok (some "hello")⟩).2.2.2.1 "k" "hello" rfl (by decide) rfl
    (by decide)

/-- Claim C9: the clipboard aggregation yields nothing when no item is
completed; otherwise it yields the fixed header — three labels separated by
tabs — followed by one tab-separated row per completed item in collection
order, the text field having every newline replaced by a space (so rows contain
no internal newline in that field); the spec's concrete example evaluates
exactly as stated. -/
theorem claim_C9 :
    (∀ now images, images.filter (fun it => it.status == RecStatus.completed) = [] →
      copyAllForExcel now images = none) ∧
    ("檔名\t擷取內容\t處理時間\n" =
      "檔名" ++ "\t" ++ "擷取內容" ++ "\t" ++ "處理時間" ++ "\n") ∧
    (∀ now images, ¬ images.filter (fun it => it.status == RecStatus.completed) = [] →
      copyAllForExcel now images =
        some ("檔名\t擷取內容\t處理時間\n" ++
          String.intercalate "\n"
            ((images.filter (fun it => it.status == RecStatus.completed)).map fun img =>
              img.fileName ++ "\t" ++ flattenNewlines (img.extractedText.getD "") ++ "\t" ++
                now))) ∧
    (∀ str, ¬ '\n' ∈ (flattenNewlines str).data) ∧
    copyAllForExcel "<ts>"
        [⟨"a", "a.png", "blob:a", .completed, .idle, some "line1\nline2", none⟩] =
      some "檔名\t擷取內容\t處理時間\na.png\tline1 line2\t<ts>" := by
  refine ⟨?_, by decide, ?_, ?_, by decide⟩
  · intro now images h
    simp [copyAllForExcel, h]
  · intro now images h
    simp [copyAllForExcel, h]
  · intro str hmem
    obtain ⟨c, _, hc⟩ := List.mem_map.mp (by simpa [flattenNewlines] using hmem)
    by_cases h : c = '\n'
    · rw [if_pos h] at hc
      exact absurd hc (by decide)
    · rw [if_neg h] at hc
      exact h hc

/-- Witness for C9 at a concrete input: a store with one completed item
produces the header plus its single row. -/
theorem claim_C9_witness :
    ¬ ([⟨"a", "a.png", "blob:a", .completed, .idle, some "x", none⟩] : List ImageFile).filter
        (fun it => it.status == RecStatus.completed) = [] ∧
    copyAllForExcel "<t>" [⟨"a", "a.png", "blob:a", .completed, .idle, some "x", none⟩] =
      some "檔名\t擷取內容\t處理時間\na.png\tx\t<t>" := by
  refine ⟨by decide, ?_⟩
  rw [claim_C9.2.2.1 "<t>" [⟨"a", "a.png", "blob:a", .completed, .idle, some "x", none⟩]
    (by decide)]
  decide

/-- Claim C6, counterexample: with auto-sync enabled and an empty endpoint, a
batch pass completes recognition (so an auto-sync moment occurs for the item)
without dispatching — but also without raising the configuration surface: the
final state still has `urlError = false` and `showSettings = false`, so the
auto-sync is silently skipped rather than reported as a configuration error,
contradicting the claim as stated. -/
theorem claim_C6_counterexample :
    (processAll okEnv (baseState [item0 "a" "a.png"] "" true)).images.map (·.status) =
      [RecStatus.completed] ∧
    (processAll okEnv (baseState [item0 "a" "a.png"] "" true)).fetchLog = [] ∧
    (processAll okEnv (baseState [item0 "a" "a.png"] "" true)).urlError = false ∧
    (processAll okEnv (baseState [item0 "a" "a.png"] "" true)).showSettings = false := by
  decide

/-- Claim C6 (amended): with an empty (trimmed) endpoint the Sync Client is
never invoked on either path, but only the user-initiated path raises the
configuration surface: a direct `syncToSheet` call flags the URL error and
opens the settings panel without dispatching, while a batch pass with an empty
endpoint performs no dispatch and leaves the error flag and the settings panel
untouched (the auto-sync is silently skipped). -/
theorem claim_C6 :
    (∀ env img s, jsTrim s.sheetUrl = "" →
      syncToSheet env img s = { s with urlError := true, showSettings := true }) ∧
    (∀ env s, jsTrim s.sheetUrl = "" →
      (processAll env s).fetchLog = s.fetchLog ∧
      (processAll env s).urlError = s.urlError ∧
      (processAll env s).showSettings = s.showSettings) := by
  constructor
  · intro env img s h
    unfold syncToSheet
    rw [if_pos h]
  · intro env s h
    exact processAll_emptyUrl env s h

/-- Witness for C6 at a concrete input: a user-initiated sync against an empty
endpoint flags the error and opens settings, dispatching nothing. -/
theorem claim_C6_witness :
    jsTrim (baseState [item0 "a" "a.png"] "" false).sheetUrl = "" ∧
    syncToSheet okEnv (item0 "a" "a.png") (baseState [item0 "a" "a.png"] "" false) =
      { baseState [item0 "a" "a.png"] "" false with urlError := true, showSettings := true } := by
  refine ⟨by decide, ?_⟩
  exact claim_C6.1 okEnv (item0 "a" "a.png") (baseState [item0 "a" "a.png"] "" false) (by decide)

/-- Claim C1: over a duplicate-free store (auto-sync off, no pass running), a
batch pass invokes recognition on exactly the non-completed items in collection
order; each such item ends `completed` with the returned text and its sync
state reset to `idle` on success, or `error` carrying the failure message on
failure, completed items being untouched; each processed item first passes
through the `processing` state with error and text cleared (`processImage` is
definitionally that two-phase sequence); and a failure on one item does not
abort the pass: in the 3-item scenario where the second item fails, exactly one
item ends failed and two end completed. -/
theorem claim_C1 (env : Env) (s : AppState)
    (hne : ¬ s.images = []) (hproc : s.isProcessing = false)
    (hnodup : (s.images.map (·.id)).Nodup) (hauto : s.autoSync = false) :
    ((processAll env s).ocrCalls =
      s.ocrCalls ++ (s.images.filter (fun it => it.status != RecStatus.completed)).map (·.id)) ∧
    ((processAll env s).images = s.images.map fun it =>
      if it.status = RecStatus.completed then it
      else
        match env.ocr it with
        | .ok t => { it with status := .completed, extractedText := some t, syncStatus := .idle }
        | .error e => { it with status := .error, error := some e }) ∧
    (∀ img s', (∀ it ∈ s'.images, it.id = img.id → it.extractedText = none) →
      ∀ it ∈ (processImageStart img s').images, it.id = img.id →
        it.status = RecStatus.processing ∧ it.error = none ∧ it.extractedText = none) ∧
    (∀ img s', processImage env img s' =
      processImageFinish env img
        { processImageStart img s' with
          ocrCalls := (processImageStart img s').ocrCalls ++ [img.id] }) ∧
    (((processAll scenarioEnv threeState).images.filter
        (fun it => it.status == RecStatus.error)).length = 1 ∧
      ((processAll scenarioEnv threeState).images.filter
        (fun it => it.status == RecStatus.completed)).length = 2) := by
  refine ⟨?_, ?_, ?_, fun img s' => rfl, by decide⟩
  · rw [processAll_eq env s hne hproc hnodup]
  · rw [processAll_eq env s hne hproc hnodup]
    apply List.map_congr_left
    intro it _
    by_cases hc : it.status = RecStatus.completed
    · simp [passResult, hc]
    · cases hocr : env.ocr it <;> simp [passResult, hc, procHit, hocr, hauto]
  · intro img s' htext it hit hid
    unfold processImageStart at hit
    obtain ⟨x, hx, hxe⟩ := List.mem_map.mp hit
    by_cases hxid : x.id = img.id
    · rw [if_pos hxid] at hxe
      subst hxe
      exact ⟨rfl, rfl, htext x hx hxid⟩
    · rw [if_neg hxid] at hxe
      subst hxe
      exact absurd hid hxid

/-- Witness for C1 at the 3-item scenario: the pass invokes recognition on all
three pending items, in collection order, despite the middle one failing. -/
theorem claim_C1_witness :
    (¬ threeState.images = [] ∧ threeState.isProcessing = false ∧
      (threeState.images.map (·.id)).Nodup ∧ threeState.autoSync = false) ∧
    (processAll scenarioEnv threeState).ocrCalls = ["a", "b", "c"] := by
  refine ⟨⟨by decide, by decide, by decide, by decide⟩, ?_⟩
  rw [(claim_C1 scenarioEnv threeState (by decide) (by decide) (by decide) (by decide)).1]
  decide

/-- Claim C10: the items a pass recognizes are fixed by the snapshot taken at
pass start: running the pass loop over that snapshot with a file added between
two iterations, the recognition log still records exactly the snapshot's
non-completed items (the added item, whose id is fresh, is not among them), and
the added item is present in the final store still `idle` with no text. -/
theorem claim_C10 (env : Env) (s : AppState) (f : FileInput) (p1 p2 : List ImageFile)
    (hsnap : s.images.filter (fun it => it.status != RecStatus.completed) = p1 ++ p2)
    (hfresh : ¬ f.id ∈ (p1 ++ p2).map (·.id)) :
    ((runPassEvents env (p1.map PassEv.proc ++ PassEv.addFiles [f] :: p2.map PassEv.proc)
        s).ocrCalls =
      s.ocrCalls ++ (s.images.filter (fun it => it.status != RecStatus.completed)).map (·.id)) ∧
    ¬ f.id ∈ (s.images.filter (fun it => it.status != RecStatus.completed)).map (·.id) ∧
    mkItem f ∈
      (runPassEvents env (p1.map PassEv.proc ++ PassEv.addFiles [f] :: p2.map PassEv.proc)
        s).images ∧
    (mkItem f).status = RecStatus.idle ∧ (mkItem f).extractedText = none := by
  refine ⟨?_, ?_, ?_, rfl, rfl⟩
  · rw [runPassEvents_ocrCalls, hsnap, passEvIds_append]
    simp [passEvIds, passEvIds_procs]
  · rw [hsnap]
    exact hfresh
  · have hsplit :
        runPassEvents env (p1.map PassEv.proc ++ PassEv.addFiles [f] :: p2.map PassEv.proc) s =
          runPassEvents env (p2.map PassEv.proc)
            (handleFileChange [f] (runPassEvents env (p1.map PassEv.proc) s)) := by
      unfold runPassEvents
      rw [List.foldl_append]
      rfl
    rw [hsplit]
    apply runPassEvents_mem
    · unfold handleFileChange
      apply List.mem_append_right
      simp
    · intro img himg hctr
      apply hfresh
      have himg2 : img ∈ p2 := by
        obtain ⟨x, hx, hxe⟩ := List.mem_map.mp himg
        cases hxe
        exact hx
      have hm : img.id ∈ (p1 ++ p2).map (·.id) :=
        List.mem_map_of_mem _ (List.mem_append_right _ himg2)
      rw [show (mkItem f).id = f.id from rfl] at hctr
      rw [hctr]
      exact hm

/-- Witness for C10 at a concrete input: a file with fresh id `"n"` added after
the only pending item was processed is present at pass end, untouched. -/
theorem claim_C10_witness :
    ((baseState [item0 "a" "a.png"] "" false).images.filter
        (fun it => it.status != RecStatus.completed) = [item0 "a" "a.png"] ++ [] ∧
      ¬ (⟨"n", "new.png", "blob:n"⟩ : FileInput).id ∈
        ([item0 "a" "a.png"] ++ ([] : List ImageFile)).map (·.id)) ∧
    mkItem ⟨"n", "new.png", "blob:n"⟩ ∈
      (runPassEvents okEnv
        ([item0 "a" "a.png"].map PassEv.proc ++
          PassEv.addFiles [⟨"n", "new.png", "blob:n"⟩] ::
            ([] : List ImageFile).map PassEv.proc)
        (baseState [item0 "a" "a.png"] "" false)).images := by
  refine ⟨⟨by decide, by decide⟩, ?_⟩
  exact (claim_C10 okEnv (baseState [item0 "a" "a.png"] "" false) ⟨"n", "new.png", "blob:n"⟩
    [item0 "a" "a.png"] [] (by decide) (by decide)).2.2.1

/-- Claim C2, counterexample: ids are generated by `Math.random` with no
uniqueness check, so two adds can yield the same id; after adding two items
that share id `"x"` and running a pass in which the second one's recognition
fails, both store entries end with status `error` while still carrying the
first one's extracted text — a reachable state where `extractedText` is
defined on a non-completed item. -/
theorem claim_C2_counterexample :
    ¬ textInv (runOps dupEnv
      [Op.add [⟨"x", "a.png", "p1"⟩, ⟨"x", "b.png", "p2"⟩], Op.pass]
      (baseState [] "" false)) := by
  decide

/-- Claim C2 (amended): provided the ids generated for added files are pairwise
distinct and distinct from the ids already in the store, every state reachable
by add, remove, clear, batch-pass and sync commands satisfies the coupling:
`extractedText` is defined exactly on items whose recognition status is
`completed`. -/
theorem claim_C2 (env : Env) (ops : List Op) (s : AppState)
    (hinv : textInv s)
    (hfresh : ((s.images.map (·.id)) ++ addedIds ops).Nodup) :
    ∀ pre suf, ops = pre ++ suf → textInv (runOps env pre s) := by
  intro pre suf heq
  subst heq
  apply textInv_runOps env pre s hinv
  rw [addedIds_append] at hfresh
  have hsub : List.Sublist (s.images.map (·.id) ++ addedIds pre)
      (s.images.map (·.id) ++ (addedIds pre ++ addedIds suf)) := by
    rw [← List.append_assoc]
    exact List.sublist_append_left _ _
  exact hsub.nodup hfresh

/-- Witness for C2 at a concrete input: adding one fresh item and running a
pass keeps the text/completed coupling. -/
theorem claim_C2_witness :
    (textInv (baseState [] "" false) ∧
      (((baseState [] "" false).images.map (·.id)) ++
        addedIds [Op.add [⟨"x", "a.png", "p1"⟩], Op.pass]).Nodup) ∧
    textInv (runOps okEnv [Op.add [⟨"x", "a.png", "p1"⟩], Op.pass] (baseState [] "" false)) := by
  refine ⟨⟨by decide, by decide⟩, ?_⟩
  exact claim_C2 okEnv [Op.add [⟨"x", "a.png", "p1"⟩], Op.pass] (baseState [] "" false)
    (by decide) (by decide) [Op.add [⟨"x", "a.png", "p1"⟩], Op.pass] []
    (List.append_nil _).symm

/-- Claim C3, counterexample: `handleFileChange` assigns each picked file an
id from `Math.random` with no uniqueness check, so one add of two files whose
generated ids collide puts two items with id `"x"` into the store. -/
theorem claim_C3_counterexample :
    ((runOps okEnv [Op.add [⟨"x", "a.png", "p1"⟩, ⟨"x", "b.png", "p2"⟩]]
        (baseState [] "" false)).images.map (·.id) = ["x", "x"]) ∧
    ¬ ((runOps okEnv [Op.add [⟨"x", "a.png", "p1"⟩, ⟨"x", "b.png", "p2"⟩]]
        (baseState [] "" false)).images.map (·.id)).Nodup := by
  decide

/-- Claim C3 (amended): along every add/remove command sequence, the store is
at every step a subsequence of the initial collection followed by the inserted
items in insertion order (append-only order, removals only delete — never
re-sorted); and provided the generated ids are pairwise distinct and distinct
from the initial store's ids, the store never holds two items with the same
id. -/
theorem claim_C3 (env : Env) (ops : List Op) (s : AppState)
    (honly : ∀ op ∈ ops, addRemoveOnly op = true) :
    ∀ pre suf, ops = pre ++ suf →
      List.Sublist (runOps env pre s).images (s.images ++ insertedItems pre) ∧
      (((s.images.map (·.id)) ++ addedIds ops).Nodup →
        ((runOps env pre s).images.map (·.id)).Nodup) := by
  intro pre suf heq
  subst heq
  have honlyPre : ∀ op ∈ pre, addRemoveOnly op = true :=
    fun op hop => honly op (List.mem_append_left _ hop)
  refine ⟨runOps_addRemove_sublist env pre s honlyPre, ?_⟩
  intro hfresh
  have hids := runOps_ids_sublist env pre s
  rw [addedIds_append] at hfresh
  have hsub : List.Sublist (s.images.map (·.id) ++ addedIds pre)
      (s.images.map (·.id) ++ (addedIds pre ++ addedIds suf)) := by
    rw [← List.append_assoc]
    exact List.sublist_append_left _ _
  exact hids.nodup (hsub.nodup hfresh)

/-- Witness for C3 at a concrete input: add `"x"`, remove it, add `"y"` — at
the end of the sequence the store is a subsequence of the insertions and its
ids are duplicate-free. -/
theorem claim_C3_witness :
    ((∀ op ∈ [Op.add [⟨"x", "a.png", "p1"⟩], Op.remove "x", Op.add [⟨"y", "b.png", "p2"⟩]],
        addRemoveOnly op = true) ∧
      (((baseState [] "" false).images.map (·.id)) ++
        addedIds [Op.add [⟨"x", "a.png", "p1"⟩], Op.remove "x",
          Op.add [⟨"y", "b.png", "p2"⟩]]).Nodup) ∧
    (List.Sublist
        (runOps okEnv
          [Op.add [⟨"x", "a.png", "p1"⟩], Op.remove "x", Op.add [⟨"y", "b.png", "p2"⟩]]
          (baseState [] "" false)).images
        ((baseState [] "" false).images ++
          insertedItems [Op.add [⟨"x", "a.png", "p1"⟩], Op.remove "x",
            Op.add [⟨"y", "b.png", "p2"⟩]]) ∧
      ((runOps okEnv
          [Op.add [⟨"x", "a.png", "p1"⟩], Op.remove "x", Op.add [⟨"y", "b.png", "p2"⟩]]
          (baseState [] "" false)).images.map (·.id)).Nodup) := by
  refine ⟨⟨by decide, by decide⟩, ?_, ?_⟩
  · exact (claim_C3 okEnv
      [Op.add [⟨"x", "a.png", "p1"⟩], Op.remove "x", Op.add [⟨"y", "b.png", "p2"⟩]]
      (baseState [] "" false) (by decide)
      [Op.add [⟨"x", "a.png", "p1"⟩], Op.remove "x", Op.add [⟨"y", "b.png", "p2"⟩]] []
      (List.append_nil _).symm).1
  · exact (claim_C3 okEnv
      [Op.add [⟨"x", "a.png", "p1"⟩], Op.remove "x", Op.add [⟨"y", "b.png", "p2"⟩]]
      (baseState [] "" false) (by decide)
      [Op.add [⟨"x", "a.png", "p1"⟩], Op.remove "x", Op.add [⟨"y", "b.png", "p2"⟩]] []
      (List.append_nil _).symm).2 (by decide)

end OCR
